import Mathlib

/-!
Shallow embedding of the core game logic of src/script.js (a falling-block
puzzle game).  Rendering, DOM wiring and the wall-clock timer are presentation
glue; the timer is modelled as a Boolean field recording whether a periodic
tick is currently scheduled.  Every definition below mirrors the corresponding
JavaScript function; colours are kept as the literal hex strings of the source
so that board cells hold either a colour string or nothing (null).
-/

namespace Tetris

/-- Grid width, from the source constant COLS. -/
def COLS : Nat := 10

/-- Grid height, from the source constant ROWS. -/
def ROWS : Nat := 20

/-- A board cell: a colour string for a locked block, or none for empty. -/
abbrev Cell := Option String

/-- A board row of cells. -/
abbrev Row := List Cell

/-- The board: ROWS rows of COLS cells. -/
abbrev Board := List Row

/-- One entry of the PIECES catalog: name, colour and rotation matrices
(0 and 1 entries, exactly as written in the source). -/
structure PieceDef where
  name : String
  colour : String
  rotations : List (List (List Nat))
deriving DecidableEq

/-- The piece catalog, transcribed row for row from the PIECES array. -/
def PIECES : List PieceDef := [
  { name := "I", colour := "#00b4d8", rotations := [
      [[0, 0, 0, 0], [1, 1, 1, 1], [0, 0, 0, 0], [0, 0, 0, 0]],
      [[0, 0, 1, 0], [0, 0, 1, 0], [0, 0, 1, 0], [0, 0, 1, 0]]] },
  { name := "J", colour := "#457b9d", rotations := [
      [[1, 0, 0], [1, 1, 1], [0, 0, 0]],
      [[0, 1, 1], [0, 1, 0], [0, 1, 0]],
      [[0, 0, 0], [1, 1, 1], [0, 0, 1]],
      [[0, 1, 0], [0, 1, 0], [1, 1, 0]]] },
  { name := "L", colour := "#f4a261", rotations := [
      [[0, 0, 1], [1, 1, 1], [0, 0, 0]],
      [[0, 1, 0], [0, 1, 0], [0, 1, 1]],
      [[0, 0, 0], [1, 1, 1], [1, 0, 0]],
      [[1, 1, 0], [0, 1, 0], [0, 1, 0]]] },
  { name := "O", colour := "#e9c46a", rotations := [
      [[1, 1], [1, 1]]] },
  { name := "S", colour := "#2a9d8f", rotations := [
      [[0, 1, 1], [1, 1, 0], [0, 0, 0]],
      [[0, 1, 0], [0, 1, 1], [0, 0, 1]]] },
  { name := "T", colour := "#a29bfe", rotations := [
      [[0, 1, 0], [1, 1, 1], [0, 0, 0]],
      [[0, 1, 0], [0, 1, 1], [0, 1, 0]],
      [[0, 0, 0], [1, 1, 1], [0, 1, 0]],
      [[0, 1, 0], [1, 1, 0], [0, 1, 0]]] },
  { name := "Z", colour := "#e63946", rotations := [
      [[1, 1, 0], [0, 1, 1], [0, 0, 0]],
      [[0, 0, 1], [0, 1, 1], [0, 1, 0]]] }]

/-- The active piece object created by randomPiece: the catalog data plus a
mutable rotation index and (x, y) anchor position. -/
structure Piece where
  name : String
  rotations : List (List (List Nat))
  colour : String
  rotationIndex : Nat
  x : Int
  y : Int
deriving DecidableEq

/-- The whole mutable game state: the board, the active piece, score, line
count, drop interval, the game-over flag, and whether a periodic tick timer is
currently scheduled (dropTimer being non-null in the source). -/
structure GameState where
  board : Board
  piece : Piece
  score : Nat
  linesCleared : Nat
  dropInterval : Nat
  isGameOver : Bool
  timerActive : Bool
deriving DecidableEq

/-- Fallback catalog entry for out-of-range indexing (never reached: the
source draws indices 0..6). -/
def defaultPieceDef : PieceDef := { name := "", colour := "", rotations := [] }

/-- randomPiece for a given catalog index: rotation index 0, x centred
horizontally on the width of rotation 0, y = -1 (one row above the board). -/
def spawnPiece (i : Nat) : Piece :=
  let d := PIECES.getD i defaultPieceDef
  { name := d.name
    rotations := d.rotations
    colour := d.colour
    rotationIndex := 0
    x := ((COLS : Int) - (((d.rotations.getD 0 []).getD 0 []).length : Int)) / 2
    y := -1 }

/-- Whether the board cell at (row y, column x) holds a locked block.  The
source reads board[y][x] only after its bound checks, so the truncations
toNat are exercised only with 0 <= y and 0 <= x. -/
def cellFilled (b : Board) (y x : Int) : Bool :=
  ((b.getD y.toNat []).getD x.toNat none).isSome

/-- The collision predicate collides(offsetX, offsetY, rotationIndex): true
iff some occupied cell of the tested rotation lands outside the horizontal
bounds, at or below the bottom, or (when its row is visible) on an occupied
board cell. -/
def collides (b : Board) (p : Piece) (offX offY : Int) (rot : Nat) : Bool :=
  let shape := p.rotations.getD rot []
  (List.range shape.length).any fun r =>
    let row := shape.getD r []
    (List.range row.length).any fun c =>
      row.getD c 0 != 0 &&
        (decide (p.x + (c : Int) + offX < 0) ||
         decide ((COLS : Int) ≤ p.x + (c : Int) + offX) ||
         decide ((ROWS : Int) ≤ p.y + (r : Int) + offY) ||
         (decide (0 ≤ p.y + (r : Int) + offY) &&
           cellFilled b (p.y + (r : Int) + offY) (p.x + (c : Int) + offX)))

/-- Occupancy of position (r, c) in a rotation matrix, with the source
convention that a missing entry reads as 0 (falsy). -/
def occupiedAt (shape : List (List Nat)) (r c : Nat) : Prop :=
  (shape.getD r []).getD c 0 ≠ 0

instance (shape : List (List Nat)) (r c : Nat) : Decidable (occupiedAt shape r c) :=
  inferInstanceAs (Decidable ((shape.getD r []).getD c 0 ≠ 0))

/-- Boolean test that a rotation matrix has at least one occupied cell. -/
def shapeHasCell (shape : List (List Nat)) : Bool :=
  (List.range shape.length).any fun r =>
    (List.range (shape.getD r []).length).any fun c =>
      (shape.getD r []).getD c 0 != 0

/-- Boolean check that every occupied cell of a shape anchored at (x, y) has
column in [0, COLS) and row below ROWS. -/
def inBoundsShape (shape : List (List Nat)) (x y : Int) : Bool :=
  (List.range shape.length).all fun r =>
    let row := shape.getD r []
    (List.range row.length).all fun c =>
      row.getD c 0 == 0 ||
        (decide (0 ≤ x + (c : Int)) && decide (x + (c : Int) < (COLS : Int)) &&
         decide (y + (r : Int) < (ROWS : Int)))

/-- The bound property for the active piece at its current rotation. -/
def pieceInBounds (p : Piece) : Bool :=
  inBoundsShape (p.rotations.getD p.rotationIndex []) p.x p.y

/-- move(dir): shift x by dir unless that collides. -/
def moveState (s : GameState) (dir : Int) : GameState :=
  if collides s.board s.piece dir 0 s.piece.rotationIndex then s
  else { s with piece := { s.piece with x := s.piece.x + dir } }

/-- The fixed kick offsets tried by rotate, in source order. -/
def kicks : List Int := [0, -1, 1, -2, 2]

/-- The next rotation index computed by rotate. -/
def nextRot (s : GameState) : Nat :=
  (s.piece.rotationIndex + 1) % s.piece.rotations.length

/-- Applying a successful kick: shift x by the offset and advance the
rotation index. -/
def applyKick (s : GameState) (o : Int) : GameState :=
  { s with piece := { s.piece with x := s.piece.x + o, rotationIndex := nextRot s } }

/-- rotate(): try the kick offsets in order against the collision predicate at
the next rotation; apply the first that does not collide, else do nothing. -/
def rotateState (s : GameState) : GameState :=
  match kicks.find? (fun o => !collides s.board s.piece o 0 (nextRot s)) with
  | some o => applyKick s o
  | none => s

/-- Write one board cell.  A negative column write is unobservable in the
source (all reads use columns 0..COLS-1), so it is modelled as a no-op;
writes past the end of a row or past the last row are no-ops likewise. -/
def setCell (b : Board) (y : Nat) (x : Int) (v : Cell) : Board :=
  if 0 ≤ x then b.set y ((b.getD y []).set x.toNat v) else b

/-- The board-writing part of placePiece: copy every occupied cell of the
active piece with row y >= 0 into the board using the piece colour. -/
def writePiece (b : Board) (p : Piece) : Board :=
  let shape := p.rotations.getD p.rotationIndex []
  (List.range shape.length).foldl
    (fun acc r =>
      let row := shape.getD r []
      (List.range row.length).foldl
        (fun acc2 c =>
          if row.getD c 0 ≠ 0 then
            if 0 ≤ p.y + (r : Int) then
              setCell acc2 (p.y + (r : Int)).toNat (p.x + (c : Int)) (some p.colour)
            else acc2
          else acc2)
        acc)
    b

/-- A row is full when every one of the COLS columns holds a block (a missing
entry reads as null, hence not full). -/
def isFullRow (row : Row) : Bool :=
  (List.range COLS).all fun c => (row.getD c none).isSome

/-- Number of full rows among the first r rows of the board. -/
def countFullBelow (b : Board) (r : Nat) : Nat :=
  ((b.take r).filter (fun row => isFullRow row)).length

/-- An empty board row. -/
def emptyRow : Row := List.replicate COLS none

/-- The clearLines scan, fuelled.  The counter r stands for row + 1 of the
source loop (so r = 0 is loop exit); a full row at index r - 1 is spliced
out, an empty row is unshifted, and the same index is re-examined.  The fuel
only bounds the number of iterations; clearLinesRun below supplies fuel
proven sufficient. -/
def clearLinesLoopF : Nat → Board → Nat → Board × Nat
  | 0, b, _ => (b, 0)
  | _ + 1, b, 0 => (b, 0)
  | fuel + 1, b, r + 1 =>
    if isFullRow (b.getD r []) then
      let res := clearLinesLoopF fuel (emptyRow :: b.eraseIdx r) (r + 1)
      (res.1, res.2 + 1)
    else
      clearLinesLoopF fuel b r

/-- The full clearLines scan from the bottom row, returning the new board and
the number of rows cleared this turn. -/
def clearLinesRun (b : Board) : Board × Nat :=
  clearLinesLoopF (ROWS + b.length + 1) b ROWS

/-- The scoring table of clearLines. -/
def lineScores : List Nat := [0, 40, 100, 300, 1200]

/-- clearLines(): run the scan, then if any rows were cleared update score and
line count and, at every tenth line while above the 200 floor, speed up by
100 (rescheduling the tick, so the timer stays active). -/
def clearLinesState (s : GameState) : GameState :=
  let res := clearLinesRun s.board
  let n := res.2
  if 0 < n then
    { s with
      board := res.1
      score := s.score + lineScores.getD n 0
      linesCleared := s.linesCleared + n
      dropInterval :=
        if (s.linesCleared + n) % 10 = 0 ∧ 200 < s.dropInterval then
          s.dropInterval - 100
        else s.dropInterval }
  else { s with board := res.1 }

/-- endGame(): set the game-over flag and cancel the tick timer. -/
def endGame (s : GameState) : GameState :=
  { s with isGameOver := true, timerActive := false }

/-- placePiece() with the index of the randomly drawn successor piece: lock
the current piece into the board, clear lines, spawn the new piece, and end
the game if the new piece collides immediately. -/
def placePieceState (s : GameState) (i : Nat) : GameState :=
  let s1 := clearLinesState { s with board := writePiece s.board s.piece }
  let p := spawnPiece i
  let s2 := { s1 with piece := p }
  if collides s2.board p 0 0 p.rotationIndex then endGame s2 else s2

/-- softDrop() and the tick body drop(): descend one row, or lock and spawn
piece i when descending collides. -/
def softDropState (s : GameState) (i : Nat) : GameState :=
  if collides s.board s.piece 0 1 s.piece.rotationIndex then placePieceState s i
  else { s with piece := { s.piece with y := s.piece.y + 1 } }

/-- Fuel for the hardDrop while loop; proven sufficient below. -/
def hardDropFuel (s : GameState) : Nat :=
  ((ROWS : Int) - s.piece.y).toNat + 1

/-- The hardDrop while loop: increment dy while descending by dy + 1 does not
collide. -/
def hardDropDyAux (s : GameState) : Nat → Nat → Nat
  | 0, dy => dy
  | fuel + 1, dy =>
    if collides s.board s.piece 0 ((dy : Int) + 1) s.piece.rotationIndex then dy
    else hardDropDyAux s fuel (dy + 1)

/-- The descent computed by hardDrop(). -/
def hardDropDy (s : GameState) : Nat :=
  hardDropDyAux s (hardDropFuel s) 0

/-- hardDrop(): descend by the computed dy, then lock and spawn piece i. -/
def hardDropState (s : GameState) (i : Nat) : GameState :=
  placePieceState
    { s with piece := { s.piece with y := s.piece.y + (hardDropDy s : Int) } } i

/-- The empty board built by resetGame. -/
def emptyBoard : Board := List.replicate ROWS emptyRow

/-- resetGame() with the index of the first drawn piece: fresh board, zero
score and lines, interval 1000, game on, tick scheduled. -/
def resetGame (i : Nat) : GameState :=
  { board := emptyBoard
    piece := spawnPiece i
    score := 0
    linesCleared := 0
    dropInterval := 1000
    isGameOver := false
    timerActive := true }

/-- One externally triggered transition: a keyboard command (all gated on the
game-over flag by the keydown handler) or a timer tick (gated inside drop()).
Operations that lock take the index of the randomly spawned successor. -/
inductive Step : GameState → GameState → Prop where
  | move (s : GameState) (d : Int) (hd : d = -1 ∨ d = 1)
      (hg : s.isGameOver = false) : Step s (moveState s d)
  | rot (s : GameState) (hg : s.isGameOver = false) : Step s (rotateState s)
  | soft (s : GameState) (i : Nat) (hi : i < 7)
      (hg : s.isGameOver = false) : Step s (softDropState s i)
  | hard (s : GameState) (i : Nat) (hi : i < 7)
      (hg : s.isGameOver = false) : Step s (hardDropState s i)
  | tick (s : GameState) (i : Nat) (hi : i < 7)
      (hg : s.isGameOver = false) : Step s (softDropState s i)

/-- States reachable from a fresh session. -/
def Reachable (s : GameState) : Prop :=
  ∃ i, i < 7 ∧ Relation.ReflTransGen Step (resetGame i) s

/-! ### The collision predicate -/

theorem occupiedAt_row_lt {shape : List (List Nat)} {r c : Nat}
    (h : occupiedAt shape r c) : r < shape.length := by
  by_contra hr
  push_neg at hr
  rw [occupiedAt, List.getD_eq_default _ _ hr] at h
  simp at h

theorem occupiedAt_col_lt {shape : List (List Nat)} {r c : Nat}
    (h : occupiedAt shape r c) : c < (shape.getD r []).length := by
  by_contra hc
  push_neg at hc
  rw [occupiedAt, List.getD_eq_default (shape.getD r []) 0 hc] at h
  simp at h

/-- Internal characterization of the collides loop as an existential over
occupied cells. -/
theorem collides_iff (b : Board) (p : Piece) (ox oy : Int) (rot : Nat) :
    collides b p ox oy rot = true ↔
      ∃ r c : Nat, occupiedAt (p.rotations.getD rot []) r c ∧
        (p.x + (c : Int) + ox < 0 ∨ (COLS : Int) ≤ p.x + (c : Int) + ox ∨
         (ROWS : Int) ≤ p.y + (r : Int) + oy ∨
         (0 ≤ p.y + (r : Int) + oy ∧
          cellFilled b (p.y + (r : Int) + oy) (p.x + (c : Int) + ox) = true)) := by
  unfold collides
  simp only [List.any_eq_true, List.mem_range, Bool.and_eq_true, Bool.or_eq_true,
    decide_eq_true_eq, bne_iff_ne, ne_eq]
  constructor
  · rintro ⟨r, _, c, _, hocc, hviol⟩
    exact ⟨r, c, hocc, by tauto⟩
  · rintro ⟨r, c, hocc, hviol⟩
    exact ⟨r, occupiedAt_row_lt hocc, c, occupiedAt_col_lt hocc, hocc, by tauto⟩

/-- If a placement does not collide, every occupied cell of the tested
rotation is inside the horizontal bounds and above the bottom. -/
theorem inBounds_of_not_collides {b : Board} {p : Piece} {ox oy : Int} {rot : Nat}
    (h : collides b p ox oy rot = false) :
    inBoundsShape (p.rotations.getD rot []) (p.x + ox) (p.y + oy) = true := by
  have h' : ¬ collides b p ox oy rot = true := by simp [h]
  unfold inBoundsShape
  simp only [List.all_eq_true, List.mem_range, Bool.or_eq_true, beq_iff_eq,
    Bool.and_eq_true, decide_eq_true_eq]
  intro r _ c _
  by_cases h0 : ((p.rotations.getD rot []).getD r []).getD c 0 = 0
  · exact Or.inl h0
  · right
    refine ⟨⟨?_, ?_⟩, ?_⟩
    · by_contra hb
      exact h' ((collides_iff b p ox oy rot).mpr ⟨r, c, h0, Or.inl (by omega)⟩)
    · by_contra hb
      exact h' ((collides_iff b p ox oy rot).mpr
        ⟨r, c, h0, Or.inr (Or.inl (by omega))⟩)
    · by_contra hb
      exact h' ((collides_iff b p ox oy rot).mpr
        ⟨r, c, h0, Or.inr (Or.inr (Or.inl (by omega)))⟩)

/-- Every freshly spawned catalog piece is in bounds. -/
theorem pieceInBounds_spawn {i : Nat} (hi : i < 7) :
    pieceInBounds (spawnPiece i) = true := by
  interval_cases i <;> decide

/-- placePiece always leaves the freshly spawned piece as the active piece. -/
theorem placePieceState_piece (s : GameState) (i : Nat) :
    (placePieceState s i).piece = spawnPiece i := by
  unfold placePieceState
  dsimp only
  split <;> rfl

theorem hardDropState_piece (s : GameState) (i : Nat) :
    (hardDropState s i).piece = spawnPiece i := by
  unfold hardDropState
  exact placePieceState_piece _ _

/-- Every transition keeps the active piece in bounds: each position or
rotation change is guarded by the collision predicate, and locking replaces
the piece by a fresh spawn. -/
theorem Step.pieceInBounds_preserved {s s' : GameState} (h : Step s s')
    (hs : pieceInBounds s.piece = true) : pieceInBounds s'.piece = true := by
  cases h with
  | move d hd hg =>
    unfold moveState
    split
    · exact hs
    · rename_i hcol
      rw [Bool.not_eq_true] at hcol
      have hb := inBounds_of_not_collides hcol
      rw [add_zero] at hb
      exact hb
  | rot hg =>
    unfold rotateState
    cases hf : List.find? (fun o => !collides s.board s.piece o 0 (nextRot s)) kicks with
    | none => exact hs
    | some o =>
      have hp := List.find?_some hf
      rw [Bool.not_eq_true'] at hp
      have hb := inBounds_of_not_collides hp
      rw [add_zero] at hb
      exact hb
  | soft i hi hg =>
    unfold softDropState
    split
    · rw [placePieceState_piece]
      exact pieceInBounds_spawn hi
    · rename_i hcol
      rw [Bool.not_eq_true] at hcol
      have hb := inBounds_of_not_collides hcol
      rw [add_zero] at hb
      exact hb
  | hard i hi hg =>
    rw [hardDropState_piece]
    exact pieceInBounds_spawn hi
  | tick i hi hg =>
    unfold softDropState
    split
    · rw [placePieceState_piece]
      exact pieceInBounds_spawn hi
    · rename_i hcol
      rw [Bool.not_eq_true] at hcol
      have hb := inBounds_of_not_collides hcol
      rw [add_zero] at hb
      exact hb

/-- C1: the collision predicate returns true iff some occupied cell (r, c) of
the tested rotation state, placed at (anchor.x + offset_x + c,
anchor.y + offset_y + r), has resulting x outside [0, COLS), or resulting
y >= ROWS, or resulting y >= 0 with the board cell at that position already
occupied; cells with resulting y < 0 are exempt from the occupancy check but
not from the horizontal-bound check.  The predicate is a pure function of the
board and the active piece (it reads and never writes them). -/
theorem spec_collision_predicate_characterization
    (b : Board) (p : Piece) (ox oy : Int) (rot : Nat) :
    collides b p ox oy rot = true ↔
      ∃ r c : Nat, occupiedAt (p.rotations.getD rot []) r c ∧
        (p.x + (c : Int) + ox < 0 ∨ (COLS : Int) ≤ p.x + (c : Int) + ox ∨
         (ROWS : Int) ≤ p.y + (r : Int) + oy ∨
         (0 ≤ p.y + (r : Int) + oy ∧
          cellFilled b (p.y + (r : Int) + oy) (p.x + (c : Int) + ox) = true)) :=
  collides_iff b p ox oy rot

/-- C2: in every game state reachable from a fresh session by move, rotate,
soft-drop, hard-drop, tick and lock operations, every occupied cell of the
active piece has column in [0, COLS) and row below ROWS (its row may still be
negative above the board): spawn establishes the bound and every transition
preserves it through the collision guard. -/
theorem spec_reachable_piece_in_bounds (s : GameState) (h : Reachable s) :
    pieceInBounds s.piece = true := by
  obtain ⟨i, hi, hr⟩ := h
  induction hr with
  | refl => exact pieceInBounds_spawn hi
  | tail _ hstep ih => exact hstep.pieceInBounds_preserved ih

/-- Witness for C2: the state one move-right after a fresh session with the J
piece is reachable and its piece is in bounds. -/
theorem spec_reachable_piece_in_bounds_witness :
    Reachable (moveState (resetGame 1) 1) ∧
      pieceInBounds (moveState (resetGame 1) 1).piece = true :=
  ⟨⟨1, by omega, Relation.ReflTransGen.single (Step.move _ 1 (Or.inr rfl) rfl)⟩,
   spec_reachable_piece_in_bounds _
     ⟨1, by omega, Relation.ReflTransGen.single (Step.move _ 1 (Or.inr rfl) rfl)⟩⟩

/-! ### Rotation with wall kicks -/

theorem applyKick_zero_eq_iff (s : GameState) :
    applyKick s 0 = s ↔ nextRot s = s.piece.rotationIndex := by
  constructor
  · intro h
    have := congrArg (fun t => t.piece.rotationIndex) h
    simpa [applyKick] using this
  · intro h
    unfold applyKick
    rw [h, add_zero]

/-- C3 counterexample: rotating the O piece on an empty board leaves the piece
state unchanged even though the first kick offset does not collide, so the
claimed equivalence (unchanged iff all five offsets collide) is false. -/
theorem spec_rotation_noop_iff_counterexample :
    rotateState (resetGame 3) = resetGame 3 ∧
      ¬ (∀ o ∈ kicks, collides (resetGame 3).board (resetGame 3).piece o 0
          (nextRot (resetGame 3)) = true) := by decide

/-- C3 amended: rotate computes nextRotation = (rotationIndex + 1) mod the
number of rotation states and tries the kick offsets 0, -1, 1, -2, 2 in that
order, applying the first that does not collide and doing nothing when all
five collide; the piece state is unchanged iff all five offsets collide, or
nextRotation equals the current rotation index (as for the single-state O
piece) and offset 0 does not collide. -/
theorem spec_rotation_kick_order_amended (s : GameState) :
    ((∀ o ∈ kicks, collides s.board s.piece o 0 (nextRot s) = true) →
      rotateState s = s) ∧
    (∀ j : Nat, j < kicks.length →
      collides s.board s.piece (kicks.getD j 0) 0 (nextRot s) = false →
      (∀ j', j' < j →
        collides s.board s.piece (kicks.getD j' 0) 0 (nextRot s) = true) →
      rotateState s = applyKick s (kicks.getD j 0)) ∧
    (rotateState s = s ↔
      ((∀ o ∈ kicks, collides s.board s.piece o 0 (nextRot s) = true) ∨
       (nextRot s = s.piece.rotationIndex ∧
        collides s.board s.piece 0 0 (nextRot s) = false))) := by
  have e0 : kicks.getD 0 0 = 0 := by decide
  have e1 : kicks.getD 1 0 = -1 := by decide
  have e2 : kicks.getD 2 0 = 1 := by decide
  have e3 : kicks.getD 3 0 = -2 := by decide
  have e4 : kicks.getD 4 0 = 2 := by decide
  by_cases h0 : collides s.board s.piece 0 0 (nextRot s) = true
  · by_cases h1 : collides s.board s.piece (-1) 0 (nextRot s) = true
    · by_cases h2 : collides s.board s.piece 1 0 (nextRot s) = true
      · by_cases h3 : collides s.board s.piece (-2) 0 (nextRot s) = true
        · by_cases h4 : collides s.board s.piece 2 0 (nextRot s) = true
          · -- all five offsets collide: rotation is a no-op
            have hrot : rotateState s = s := by
              unfold rotateState
              have hf : (kicks.find? fun o =>
                  !collides s.board s.piece o 0 (nextRot s)) = none := by
                simp [kicks, List.find?, h0, h1, h2, h3, h4]
              rw [hf]
            refine ⟨fun _ => hrot, ?_, ?_⟩
            · intro j hj hcol _
              have hj5 : j < 5 := by simpa [kicks] using hj
              interval_cases j
              · rw [e0, h0] at hcol; cases hcol
              · rw [e1, h1] at hcol; cases hcol
              · rw [e2, h2] at hcol; cases hcol
              · rw [e3, h3] at hcol; cases hcol
              · rw [e4, h4] at hcol; cases hcol
            · rw [hrot]
              constructor
              · intro _
                left
                intro o ho
                simp [kicks] at ho
                rcases ho with rfl | rfl | rfl | rfl | rfl <;> assumption
              · intro _
                rfl
          · -- offset 2 is the first that does not collide
            rw [Bool.not_eq_true] at h4
            have hrot : rotateState s = applyKick s 2 := by
              unfold rotateState
              have hf : (kicks.find? fun o =>
                  !collides s.board s.piece o 0 (nextRot s)) = some 2 := by
                simp [kicks, List.find?, h0, h1, h2, h3, h4]
              rw [hf]
            refine ⟨?_, ?_, ?_⟩
            · intro hall
              exact absurd (hall 2 (by decide)) (by simp [h4])
            · intro j hj hcol hearlier
              have hj5 : j < 5 := by simpa [kicks] using hj
              interval_cases j
              · rw [e0, h0] at hcol; cases hcol
              · rw [e1, h1] at hcol; cases hcol
              · rw [e2, h2] at hcol; cases hcol
              · rw [e3, h3] at hcol; cases hcol
              · rw [e4]; exact hrot
            · rw [hrot]
              constructor
              · intro he
                have hx := congrArg (fun t => t.piece.x) he
                simp [applyKick] at hx
              · rintro (hall | ⟨-, hcf⟩)
                · exact absurd (hall 2 (by decide)) (by simp [h4])
                · rw [h0] at hcf; cases hcf
        · -- offset -2 is the first that does not collide
          rw [Bool.not_eq_true] at h3
          have hrot : rotateState s = applyKick s (-2) := by
            unfold rotateState
            have hf : (kicks.find? fun o =>
                !collides s.board s.piece o 0 (nextRot s)) = some (-2) := by
              simp [kicks, List.find?, h0, h1, h2, h3]
            rw [hf]
          refine ⟨?_, ?_, ?_⟩
          · intro hall
            exact absurd (hall (-2) (by decide)) (by simp [h3])
          · intro j hj hcol hearlier
            have hj5 : j < 5 := by simpa [kicks] using hj
            interval_cases j
            · rw [e0, h0] at hcol; cases hcol
            · rw [e1, h1] at hcol; cases hcol
            · rw [e2, h2] at hcol; cases hcol
            · rw [e3]; exact hrot
            · have := hearlier 3 (by omega)
              rw [e3, h3] at this; cases this
          · rw [hrot]
            constructor
            · intro he
              have hx := congrArg (fun t => t.piece.x) he
              simp [applyKick] at hx
            · rintro (hall | ⟨-, hcf⟩)
              · exact absurd (hall (-2) (by decide)) (by simp [h3])
              · rw [h0] at hcf; cases hcf
      · -- offset 1 is the first that does not collide
        rw [Bool.not_eq_true] at h2
        have hrot : rotateState s = applyKick s 1 := by
          unfold rotateState
          have hf : (kicks.find? fun o =>
              !collides s.board s.piece o 0 (nextRot s)) = some 1 := by
            simp [kicks, List.find?, h0, h1, h2]
          rw [hf]
        refine ⟨?_, ?_, ?_⟩
        · intro hall
          exact absurd (hall 1 (by decide)) (by simp [h2])
        · intro j hj hcol hearlier
          have hj5 : j < 5 := by simpa [kicks] using hj
          interval_cases j
          · rw [e0, h0] at hcol; cases hcol
          · rw [e1, h1] at hcol; cases hcol
          · rw [e2]; exact hrot
          · have := hearlier 2 (by omega)
            rw [e2, h2] at this; cases this
          · have := hearlier 2 (by omega)
            rw [e2, h2] at this; cases this
        · rw [hrot]
          constructor
          · intro he
            have hx := congrArg (fun t => t.piece.x) he
            simp [applyKick] at hx
          · rintro (hall | ⟨-, hcf⟩)
            · exact absurd (hall 1 (by decide)) (by simp [h2])
            · rw [h0] at hcf; cases hcf
    · -- offset -1 is the first that does not collide
      rw [Bool.not_eq_true] at h1
      have hrot : rotateState s = applyKick s (-1) := by
        unfold rotateState
        have hf : (kicks.find? fun o =>
            !collides s.board s.piece o 0 (nextRot s)) = some (-1) := by
          simp [kicks, List.find?, h0, h1]
        rw [hf]
      refine ⟨?_, ?_, ?_⟩
      · intro hall
        exact absurd (hall (-1) (by decide)) (by simp [h1])
      · intro j hj hcol hearlier
        have hj5 : j < 5 := by simpa [kicks] using hj
        interval_cases j
        · rw [e0, h0] at hcol; cases hcol
        · rw [e1]; exact hrot
        · have := hearlier 1 (by omega)
          rw [e1, h1] at this; cases this
        · have := hearlier 1 (by omega)
          rw [e1, h1] at this; cases this
        · have := hearlier 1 (by omega)
          rw [e1, h1] at this; cases this
      · rw [hrot]
        constructor
        · intro he
          have hx := congrArg (fun t => t.piece.x) he
          simp [applyKick] at hx
        · rintro (hall | ⟨-, hcf⟩)
          · exact absurd (hall (-1) (by decide)) (by simp [h1])
          · rw [h0] at hcf; cases hcf
  · -- offset 0 does not collide
    rw [Bool.not_eq_true] at h0
    have hrot : rotateState s = applyKick s 0 := by
      unfold rotateState
      have hf : (kicks.find? fun o =>
          !collides s.board s.piece o 0 (nextRot s)) = some 0 := by
        simp [kicks, List.find?, h0]
      rw [hf]
    refine ⟨?_, ?_, ?_⟩
    · intro hall
      exact absurd (hall 0 (by decide)) (by simp [h0])
    · intro j hj hcol hearlier
      have hj5 : j < 5 := by simpa [kicks] using hj
      interval_cases j
      · rw [e0]; exact hrot
      · have := hearlier 0 (by omega)
        rw [e0, h0] at this; cases this
      · have := hearlier 0 (by omega)
        rw [e0, h0] at this; cases this
      · have := hearlier 0 (by omega)
        rw [e0, h0] at this; cases this
      · have := hearlier 0 (by omega)
        rw [e0, h0] at this; cases this
    · rw [hrot]
      constructor
      · intro he
        exact Or.inr ⟨(applyKick_zero_eq_iff s).mp he, h0⟩
      · rintro (hall | ⟨hnr, -⟩)
        · exact absurd (hall 0 (by decide)) (by simp [h0])
        · exact (applyKick_zero_eq_iff s).mpr hnr

/-- Witness for C3 amended: on a fresh session with the I piece the first
kick offset 0 does not collide and rotation applies it. -/
theorem spec_rotation_kick_order_amended_witness :
    collides (resetGame 0).board (resetGame 0).piece (kicks.getD 0 0) 0
        (nextRot (resetGame 0)) = false ∧
      rotateState (resetGame 0) = applyKick (resetGame 0) (kicks.getD 0 0) :=
  ⟨by decide,
   (spec_rotation_kick_order_amended (resetGame 0)).2.1 0 (by decide) (by decide)
     (fun j' hj' => absurd hj' (by omega))⟩

/-! ### Line clearing -/

theorem isFullRow_nil : isFullRow ([] : Row) = false := by decide

theorem isFullRow_emptyRow : isFullRow emptyRow = false := by decide

theorem countFullBelow_zero (b : Board) : countFullBelow b 0 = 0 := by
  simp [countFullBelow]

theorem countFullBelow_succ_of_lt (b : Board) (r : Nat) (hr : r < b.length) :
    countFullBelow b (r + 1) =
      countFullBelow b r + (if isFullRow (b.getD r []) then 1 else 0) := by
  unfold countFullBelow
  have hgetd : b.getD r [] = b[r] := by
    rw [List.getD_eq_getElem?_getD, List.getElem?_eq_getElem hr]
    rfl
  rw [List.take_succ, List.getElem?_eq_getElem hr, hgetd]
  simp only [Option.toList_some, List.filter_append, List.length_append]
  cases hf : isFullRow b[r] <;> simp [List.filter, hf]

theorem countFullBelow_succ_of_ge (b : Board) (r : Nat) (hr : b.length ≤ r) :
    countFullBelow b (r + 1) = countFullBelow b r := by
  unfold countFullBelow
  rw [List.take_of_length_le hr, List.take_of_length_le (by omega)]

theorem countFullBelow_le_length (b : Board) (r : Nat) :
    countFullBelow b r ≤ b.length := by
  unfold countFullBelow
  calc ((b.take r).filter (fun row => isFullRow row)).length
      ≤ (b.take r).length := List.length_filter_le _ _
    _ ≤ b.length := by rw [List.length_take]; omega

/-- The fuelled clearLines scan computes exactly: the full rows among the
first r rows are removed, as many fresh empty rows are prepended, rows from
index r on are untouched, and the count of removals is returned; the fuel
only has to dominate r plus the number of full rows still to be found. -/
theorem clearLinesLoopF_eq (fuel : Nat) : ∀ (b : Board) (r : Nat),
    r + countFullBelow b r < fuel →
    clearLinesLoopF fuel b r =
      (List.replicate (countFullBelow b r) emptyRow ++
        (b.take r).filter (fun row => !isFullRow row) ++ b.drop r,
       countFullBelow b r) := by
  induction fuel with
  | zero => intro b r h; omega
  | succ fuel ih =>
    intro b r h
    match r with
    | 0 =>
      simp [clearLinesLoopF, countFullBelow]
    | r + 1 =>
      simp only [clearLinesLoopF]
      split
      · rename_i hf
        have hrlen : r < b.length := by
          by_contra hge
          push_neg at hge
          rw [List.getD_eq_default _ _ hge] at hf
          exact absurd hf (by decide)
        have htake : (emptyRow :: b.eraseIdx r).take (r + 1) = emptyRow :: b.take r := by
          rw [List.take_succ_cons]
          congr 1
          rw [List.eraseIdx_eq_take_drop_succ,
            List.take_append_of_le_length (by rw [List.length_take]; omega),
            List.take_take]
          simp
        have hdrop : (emptyRow :: b.eraseIdx r).drop (r + 1) = b.drop (r + 1) := by
          rw [List.drop_succ_cons, List.eraseIdx_eq_take_drop_succ]
          have hlt : (b.take r).length = r := by rw [List.length_take]; omega
          have h2 := List.drop_left (b.take r) (b.drop (r + 1))
          rwa [hlt] at h2
        have hcount : countFullBelow (emptyRow :: b.eraseIdx r) (r + 1) =
            countFullBelow b r := by
          unfold countFullBelow
          rw [htake]
          simp [List.filter, isFullRow_emptyRow]
        have hcount2 : countFullBelow b (r + 1) = countFullBelow b r + 1 := by
          rw [countFullBelow_succ_of_lt b r hrlen, if_pos hf]
        have hrec := ih (emptyRow :: b.eraseIdx r) (r + 1) (by omega)
        rw [hrec, hcount, hcount2]
        have hgetd : b.getD r [] = b[r] := by
          rw [List.getD_eq_getElem?_getD, List.getElem?_eq_getElem hrlen]
          rfl
        have hbr : isFullRow b[r] = true := by rw [← hgetd]; exact hf
        have htake2 : b.take (r + 1) = b.take r ++ [b[r]] := by
          rw [List.take_succ, List.getElem?_eq_getElem hrlen]
          rfl
        rw [htake, hdrop, htake2, List.filter_append]
        have hdropfull : List.filter (fun row => !isFullRow row) [b[r]] = [] := by
          simp [List.filter, hbr]
        have hkeepempty :
            List.filter (fun row => !isFullRow row) (emptyRow :: b.take r) =
              emptyRow :: List.filter (fun row => !isFullRow row) (b.take r) := by
          simp [List.filter, isFullRow_emptyRow]
        rw [hdropfull, hkeepempty, List.append_nil, List.replicate_succ',
          List.append_assoc (List.replicate (countFullBelow b r) emptyRow) [emptyRow]]
        rfl
      · rename_i hf
        rw [Bool.not_eq_true] at hf
        have hcount : countFullBelow b (r + 1) = countFullBelow b r := by
          by_cases hrlen : r < b.length
          · rw [countFullBelow_succ_of_lt b r hrlen, hf]
            simp
          · push_neg at hrlen
            exact countFullBelow_succ_of_ge b r hrlen
        have hrec := ih b r (by omega)
        rw [hrec, hcount]
        by_cases hrlen : r < b.length
        · have hgetd : b.getD r [] = b[r] := by
            rw [List.getD_eq_getElem?_getD, List.getElem?_eq_getElem hrlen]
            rfl
          have hbr : isFullRow b[r] = false := by rw [← hgetd]; exact hf
          have htake2 : b.take (r + 1) = b.take r ++ [b[r]] := by
            rw [List.take_succ, List.getElem?_eq_getElem hrlen]
            rfl
          have hkeep : List.filter (fun row => !isFullRow row) [b[r]] = [b[r]] := by
            simp [List.filter, hbr]
          rw [htake2, List.filter_append, hkeep, List.drop_eq_getElem_cons hrlen]
          simp only [List.append_assoc, List.singleton_append]
        · push_neg at hrlen
          rw [List.take_of_length_le hrlen, List.take_of_length_le (by omega),
            List.drop_eq_nil_of_le hrlen, List.drop_eq_nil_of_le (by omega)]

/-- clearLinesRun always has sufficient fuel. -/
theorem clearLinesRun_eq (b : Board) :
    clearLinesRun b =
      (List.replicate (countFullBelow b ROWS) emptyRow ++
        (b.take ROWS).filter (fun row => !isFullRow row) ++ b.drop ROWS,
       countFullBelow b ROWS) := by
  apply clearLinesLoopF_eq
  have := countFullBelow_le_length b ROWS
  omega

theorem countFullBelow_length (b : Board) :
    countFullBelow b b.length = (b.filter (fun row => isFullRow row)).length := by
  unfold countFullBelow
  rw [List.take_length]

/-- C4: clearLines turns the board into the original board with exactly the
full rows removed and the same number of fresh empty rows prepended at the
top, preserving the relative order of the non-full rows (the bottom-to-top
scan re-tests the index after each removal, so adjacent full rows are all
found), and a board with zero full rows is left unchanged. -/
theorem spec_clear_lines_board_transform (b : Board) (hb : b.length = ROWS) :
    (clearLinesRun b).1 =
      List.replicate ((b.filter (fun row => isFullRow row)).length) emptyRow ++
        b.filter (fun row => !isFullRow row) ∧
    (clearLinesRun b).2 = (b.filter (fun row => isFullRow row)).length ∧
    ((b.filter (fun row => isFullRow row)).length = 0 → (clearLinesRun b).1 = b) := by
  have he := clearLinesRun_eq b
  rw [← hb, List.take_length, List.drop_length, List.append_nil,
    countFullBelow_length] at he
  refine ⟨by rw [he], by rw [he], ?_⟩
  intro h0
  rw [List.length_eq_zero] at h0
  have hall := List.filter_eq_nil_iff.mp h0
  have hself : b.filter (fun row => !isFullRow row) = b :=
    List.filter_eq_self.mpr fun row hrow => by
      have := hall row hrow
      simp at this
      simp [this]
  rw [he, h0, hself]
  simp

/-- A full row of locked Z-coloured blocks, for concrete tests. -/
def fullRedRow : Row := List.replicate COLS (some "#e63946")

/-- A board whose two bottom rows are full (adjacent full rows). -/
def twoFullBoard : Board := List.replicate 18 emptyRow ++ [fullRedRow, fullRedRow]

/-- Witness for C4: a board with two adjacent full bottom rows is compacted
to the empty board with both rows counted. -/
theorem spec_clear_lines_board_transform_witness :
    twoFullBoard.length = ROWS ∧
      (clearLinesRun twoFullBoard).1 =
        List.replicate ((twoFullBoard.filter (fun row => isFullRow row)).length)
          emptyRow ++ twoFullBoard.filter (fun row => !isFullRow row) ∧
      (clearLinesRun twoFullBoard).2 =
        (twoFullBoard.filter (fun row => isFullRow row)).length :=
  ⟨by decide, (spec_clear_lines_board_transform twoFullBoard (by decide)).1,
    (spec_clear_lines_board_transform twoFullBoard (by decide)).2.1⟩

/-- C5: a clearLines invocation that clears n rows (n at most 4, the most
that one lock can complete) adds exactly lineScores[n] to the score, with
lineScores = [0, 40, 100, 300, 1200], and exactly n to the cumulative line
count; clearing 0 rows changes neither. -/
theorem spec_clear_lines_scoring (s : GameState)
    (hn : (clearLinesRun s.board).2 ≤ 4) :
    (clearLinesState s).score =
      s.score + lineScores.getD (clearLinesRun s.board).2 0 ∧
    (clearLinesState s).linesCleared =
      s.linesCleared + (clearLinesRun s.board).2 := by
  unfold clearLinesState
  dsimp only
  split
  · exact ⟨rfl, rfl⟩
  · rename_i hpos
    have hn0 : (clearLinesRun s.board).2 = 0 := by omega
    rw [hn0]
    exact ⟨by simp [lineScores], by simp⟩

/-- Witness for C5: clearing the two full bottom rows awards 100 points and
2 lines from a fresh zero score. -/
theorem spec_clear_lines_scoring_witness :
    (clearLinesRun ({ resetGame 4 with board := twoFullBoard } : GameState).board).2 ≤ 4 ∧
      (clearLinesState { resetGame 4 with board := twoFullBoard }).score = 0 + 100 ∧
      (clearLinesState { resetGame 4 with board := twoFullBoard }).linesCleared = 0 + 2 :=
  ⟨by decide,
   (spec_clear_lines_scoring { resetGame 4 with board := twoFullBoard }
     (by decide)).1.trans (by decide),
   (spec_clear_lines_scoring { resetGame 4 with board := twoFullBoard }
     (by decide)).2.trans (by decide)⟩

/-! ### Drop interval progression -/

/-- clearLines either leaves the drop interval alone, or (only when the line
count just crossed a multiple of ten while the interval was above the 200
floor) lowers it by exactly 100. -/
theorem clearLinesState_interval (s : GameState) :
    (clearLinesState s).dropInterval = s.dropInterval ∨
      (200 < s.dropInterval ∧
       (clearLinesState s).dropInterval = s.dropInterval - 100 ∧
       (clearLinesState s).linesCleared % 10 = 0 ∧
       s.linesCleared < (clearLinesState s).linesCleared) := by
  unfold clearLinesState
  dsimp only
  split
  · rename_i hn
    split
    · rename_i hc
      exact Or.inr ⟨hc.2, rfl, hc.1,
        show s.linesCleared < s.linesCleared + (clearLinesRun s.board).2 by omega⟩
    · exact Or.inl rfl
  · exact Or.inl rfl

theorem placePieceState_fields (s : GameState) (i : Nat) :
    (placePieceState s i).dropInterval =
      (clearLinesState { s with board := writePiece s.board s.piece }).dropInterval ∧
    (placePieceState s i).linesCleared =
      (clearLinesState { s with board := writePiece s.board s.piece }).linesCleared := by
  unfold placePieceState
  dsimp only
  split <;> exact ⟨rfl, rfl⟩

theorem placePieceState_interval (s : GameState) (i : Nat) :
    (placePieceState s i).dropInterval = s.dropInterval ∨
      (200 < s.dropInterval ∧
       (placePieceState s i).dropInterval = s.dropInterval - 100 ∧
       (placePieceState s i).linesCleared % 10 = 0 ∧
       s.linesCleared < (placePieceState s i).linesCleared) := by
  have hf := placePieceState_fields s i
  have hc := clearLinesState_interval { s with board := writePiece s.board s.piece }
  rcases hc with he | ⟨h200, he, hm, hlt⟩
  · exact Or.inl (by rw [hf.1, he])
  · exact Or.inr ⟨h200, by rw [hf.1, he], by rw [hf.2]; exact hm, by rw [hf.2]; exact hlt⟩

/-- Across any single transition the drop interval is unchanged, or drops by
exactly 100 from above the floor at a fresh multiple of ten lines. -/
theorem Step.interval_change {s s' : GameState} (h : Step s s') :
    s'.dropInterval = s.dropInterval ∨
      (200 < s.dropInterval ∧ s'.dropInterval = s.dropInterval - 100 ∧
       s'.linesCleared % 10 = 0 ∧ s.linesCleared < s'.linesCleared) := by
  cases h with
  | move d hd hg =>
    left
    unfold moveState
    split <;> rfl
  | rot hg =>
    left
    unfold rotateState
    cases hf : List.find? (fun o => !collides s.board s.piece o 0 (nextRot s)) kicks with
    | none => rfl
    | some o => rfl
  | soft i hi hg =>
    unfold softDropState
    split
    · exact placePieceState_interval s i
    · left
      rfl
  | hard i hi hg =>
    unfold hardDropState
    exact placePieceState_interval _ i
  | tick i hi hg =>
    unfold softDropState
    split
    · exact placePieceState_interval s i
    · left
      rfl

/-- C6: within a session the drop interval is monotonically non-increasing:
a transition changes it only through clearLines, only when the incremented
line count is a multiple of ten while the interval exceeds the 200 floor,
and then by decreasing exactly 100; starting from 1000 every reachable
interval is a multiple of 100 between 200 and 1000. -/
theorem spec_drop_interval_monotone :
    (∀ s s' : GameState, Step s s' →
      s'.dropInterval ≤ s.dropInterval ∧
      (s'.dropInterval = s.dropInterval ∨
        (200 < s.dropInterval ∧ s'.dropInterval = s.dropInterval - 100 ∧
         s'.linesCleared % 10 = 0 ∧ s.linesCleared < s'.linesCleared))) ∧
    (∀ s : GameState, Reachable s →
      s.dropInterval % 100 = 0 ∧ 200 ≤ s.dropInterval ∧ s.dropInterval ≤ 1000) := by
  constructor
  · intro s s' h
    have hc := h.interval_change
    refine ⟨?_, hc⟩
    rcases hc with he | ⟨h200, he, -, -⟩ <;> omega
  · intro s h
    obtain ⟨i, hi, hr⟩ := h
    induction hr with
    | refl =>
      have h1000 : (resetGame i).dropInterval = 1000 := rfl
      exact ⟨by rw [h1000], by rw [h1000]; omega, by rw [h1000]⟩
    | tail hsteps hstep ih =>
      obtain ⟨h1, h2, h3⟩ := ih
      rcases hstep.interval_change with he | ⟨h200, he, -, -⟩ <;>
        exact ⟨by omega, by omega, by omega⟩

/-- Witness for C6: a rotation step from a fresh session keeps the interval
at 1000, which satisfies the reachable-interval bounds. -/
theorem spec_drop_interval_monotone_witness :
    (rotateState (resetGame 2)).dropInterval ≤ (resetGame 2).dropInterval ∧
      (resetGame 2).dropInterval % 100 = 0 :=
  ⟨(spec_drop_interval_monotone.1 _ _ (Step.rot (resetGame 2) rfl)).1,
   (spec_drop_interval_monotone.2 (resetGame 2)
     ⟨2, by omega, Relation.ReflTransGen.refl⟩).1⟩

/-! ### Hard drop -/

/-- The hardDrop loop returns the least descent at which the next step down
collides, provided some such descent exists within the fuel. -/
theorem hardDropDyAux_least (s : GameState) :
    ∀ (fuel dy0 D : Nat), dy0 ≤ D → D < dy0 + fuel →
      collides s.board s.piece 0 ((D : Int) + 1) s.piece.rotationIndex = true →
      (collides s.board s.piece 0 ((hardDropDyAux s fuel dy0 : Int) + 1)
          s.piece.rotationIndex = true ∧
       dy0 ≤ hardDropDyAux s fuel dy0 ∧
       hardDropDyAux s fuel dy0 ≤ D ∧
       ∀ d : Nat, dy0 ≤ d → d < hardDropDyAux s fuel dy0 →
         collides s.board s.piece 0 ((d : Int) + 1) s.piece.rotationIndex = false) := by
  intro fuel
  induction fuel with
  | zero => intro dy0 D h1 h2 hD; omega
  | succ fuel ih =>
    intro dy0 D h1 h2 hD
    simp only [hardDropDyAux]
    split
    · rename_i hc
      exact ⟨hc, Nat.le_refl _, h1, fun d hd1 hd2 => by omega⟩
    · rename_i hc
      rw [Bool.not_eq_true] at hc
      have hne : dy0 ≠ D := by
        intro he
        rw [he, hD] at hc
        cases hc
      obtain ⟨ha, hb, hcle, hmin⟩ := ih (dy0 + 1) D (by omega) (by omega) hD
      refine ⟨ha, by omega, hcle, ?_⟩
      intro d hd1 hd2
      by_cases hdd : d = dy0
      · rw [hdd]
        exact hc
      · exact hmin d (by omega) hd2

/-- A piece whose current rotation has at least one occupied cell collides
whenever it is pushed at least ROWS - y rows down. -/
theorem collides_far (s : GameState)
    (hne : shapeHasCell (s.piece.rotations.getD s.piece.rotationIndex []) = true)
    (d : Int) (hd : (ROWS : Int) - s.piece.y ≤ d) :
    collides s.board s.piece 0 d s.piece.rotationIndex = true := by
  unfold shapeHasCell at hne
  simp only [List.any_eq_true, List.mem_range, bne_iff_ne, ne_eq] at hne
  obtain ⟨r, hr, c, hc, hocc⟩ := hne
  rw [collides_iff]
  exact ⟨r, c, hocc, Or.inr (Or.inr (Or.inl (by omega)))⟩

/-- The descent computed by hardDrop: the next row down collides, the descent
is bounded by ROWS - y, and every smaller descent does not collide. -/
theorem hardDropDy_spec (s : GameState)
    (hne : shapeHasCell (s.piece.rotations.getD s.piece.rotationIndex []) = true) :
    collides s.board s.piece 0 ((hardDropDy s : Int) + 1) s.piece.rotationIndex = true ∧
    hardDropDy s ≤ ((ROWS : Int) - s.piece.y).toNat ∧
    (∀ d : Nat, d < hardDropDy s →
      collides s.board s.piece 0 ((d : Int) + 1) s.piece.rotationIndex = false) := by
  have hD : collides s.board s.piece 0
      (((((ROWS : Int) - s.piece.y).toNat : Nat) : Int) + 1) s.piece.rotationIndex = true := by
    apply collides_far s hne
    omega
  obtain ⟨ha, -, hle, hmin⟩ :=
    hardDropDyAux_least s (hardDropFuel s) 0 (((ROWS : Int) - s.piece.y).toNat)
      (by omega) (by unfold hardDropFuel; omega) hD
  exact ⟨ha, hle, fun d hd => hmin d (by omega) hd⟩

/-- The row where the O piece locks after a hard drop from spawn. -/
def oLockedRow : Row :=
  List.replicate 4 none ++ [some "#e9c46a", some "#e9c46a"] ++ List.replicate 4 none

/-- C7: hardDrop advances by the maximal non-colliding descent dy: the
descent dy + 1 collides, every descent 1..dy does not, and when the start
does not collide neither does dy itself; concretely, the O piece spawned at
x = 4, y = -1 over an empty board locks its four cells into rows 18 and 19,
columns 4 and 5, with score and line count still zero. -/
theorem spec_hard_drop_maximal_descent :
    (∀ s : GameState,
      shapeHasCell (s.piece.rotations.getD s.piece.rotationIndex []) = true →
      collides s.board s.piece 0 ((hardDropDy s : Int) + 1) s.piece.rotationIndex = true ∧
      (∀ d : Nat, 1 ≤ d → d ≤ hardDropDy s →
        collides s.board s.piece 0 (d : Int) s.piece.rotationIndex = false) ∧
      (collides s.board s.piece 0 0 s.piece.rotationIndex = false →
        collides s.board s.piece 0 (hardDropDy s : Int) s.piece.rotationIndex = false)) ∧
    (hardDropDy (resetGame 3) = 19 ∧
     (hardDropState (resetGame 3) 0).board =
       List.replicate 18 emptyRow ++ [oLockedRow, oLockedRow] ∧
     (hardDropState (resetGame 3) 0).score = 0 ∧
     (hardDropState (resetGame 3) 0).linesCleared = 0) := by
  constructor
  · intro s hne
    obtain ⟨ha, hle, hmin⟩ := hardDropDy_spec s hne
    have hinner : ∀ d : Nat, 1 ≤ d → d ≤ hardDropDy s →
        collides s.board s.piece 0 (d : Int) s.piece.rotationIndex = false := by
      intro d h1 h2
      have hm := hmin (d - 1) (by omega)
      have he : (((d - 1 : Nat) : Int) + 1) = (d : Int) := by omega
      rw [he] at hm
      exact hm
    refine ⟨ha, hinner, ?_⟩
    intro h0
    by_cases hz : hardDropDy s = 0
    · rw [hz]
      exact h0
    · exact hinner (hardDropDy s) (by omega) (Nat.le_refl _)
  · exact ⟨by decide, by decide, by decide, by decide⟩

/-- Witness for C7: the T piece at spawn over an empty board has a nonempty
shape, its landing descent collides one row further, and the descent itself
does not collide since the start does not. -/
theorem spec_hard_drop_maximal_descent_witness :
    shapeHasCell ((resetGame 5).piece.rotations.getD
        (resetGame 5).piece.rotationIndex []) = true ∧
      collides (resetGame 5).board (resetGame 5).piece 0
        ((hardDropDy (resetGame 5) : Int) + 1) (resetGame 5).piece.rotationIndex = true ∧
      collides (resetGame 5).board (resetGame 5).piece 0
        (hardDropDy (resetGame 5) : Int) (resetGame 5).piece.rotationIndex = false :=
  ⟨by decide,
   (spec_hard_drop_maximal_descent.1 (resetGame 5) (by decide)).1,
   (spec_hard_drop_maximal_descent.1 (resetGame 5) (by decide)).2.2 (by decide)⟩

/-- C10: every rotation state of every catalog variant has at least one
occupied cell, so the hardDrop loop always meets a colliding descent within
ROWS - y steps and terminates. -/
theorem spec_hard_drop_termination :
    (∀ d ∈ PIECES, ∀ m ∈ d.rotations, shapeHasCell m = true) ∧
    (∀ s : GameState,
      shapeHasCell (s.piece.rotations.getD s.piece.rotationIndex []) = true →
      collides s.board s.piece 0 ((hardDropDy s : Int) + 1)
        s.piece.rotationIndex = true ∧
      hardDropDy s ≤ ((ROWS : Int) - s.piece.y).toNat) := by
  constructor
  · decide
  · intro s hne
    exact ⟨(hardDropDy_spec s hne).1, (hardDropDy_spec s hne).2.1⟩

/-- Witness for C10: the I piece at spawn meets a colliding descent. -/
theorem spec_hard_drop_termination_witness :
    shapeHasCell ((resetGame 0).piece.rotations.getD
        (resetGame 0).piece.rotationIndex []) = true ∧
      collides (resetGame 0).board (resetGame 0).piece 0
        ((hardDropDy (resetGame 0) : Int) + 1) (resetGame 0).piece.rotationIndex = true :=
  ⟨by decide, (spec_hard_drop_termination.2 (resetGame 0) (by decide)).1⟩

/-! ### Lock, spawn and game over -/

theorem clearLinesState_isGameOver (s : GameState) :
    (clearLinesState s).isGameOver = s.isGameOver := by
  unfold clearLinesState
  dsimp only
  split <;> rfl

/-- C8: after a lock writes the piece cells (visible rows only) and line
clearing runs, the new piece is spawned and the session is terminal exactly
when that spawn collides at its spawn position and rotation; game over
cancels the tick timer and mutates neither board, score nor line count
beyond what the lock and clear already did. -/
theorem spec_lock_spawn_game_over (s : GameState) (i : Nat)
    (hg : s.isGameOver = false) :
    (placePieceState s i).piece = spawnPiece i ∧
    (placePieceState s i).isGameOver =
      collides (clearLinesState { s with board := writePiece s.board s.piece }).board
        (spawnPiece i) 0 0 (spawnPiece i).rotationIndex ∧
    (placePieceState s i).board =
      (clearLinesState { s with board := writePiece s.board s.piece }).board ∧
    (placePieceState s i).score =
      (clearLinesState { s with board := writePiece s.board s.piece }).score ∧
    (placePieceState s i).linesCleared =
      (clearLinesState { s with board := writePiece s.board s.piece }).linesCleared ∧
    ((placePieceState s i).isGameOver = true →
      (placePieceState s i).timerActive = false) := by
  unfold placePieceState
  dsimp only
  split
  · rename_i hcol
    exact ⟨rfl, hcol.symm, rfl, rfl, rfl, fun _ => rfl⟩
  · rename_i hcol
    rw [Bool.not_eq_true] at hcol
    refine ⟨rfl, ?_, rfl, rfl, rfl, ?_⟩
    · show (clearLinesState { s with board := writePiece s.board s.piece }).isGameOver = _
      rw [clearLinesState_isGameOver, hcol]
      exact hg
    · intro hgo
      have h2 : (clearLinesState
          { s with board := writePiece s.board s.piece }).isGameOver = true := hgo
      rw [clearLinesState_isGameOver] at h2
      have h3 : s.isGameOver = true := h2
      rw [hg] at h3
      cases h3

/-- A board row with a single locked block at column 4, used to block the O
spawn cells. -/
def blockedRow : Row := List.replicate 4 none ++ [some "#ffffff"] ++ List.replicate 5 none

/-- A live session whose board blocks the O spawn position. -/
def blockedState : GameState :=
  { resetGame 0 with board := blockedRow :: List.replicate 19 emptyRow }

/-- Witness for C8: locking the I piece into the blocked board makes the O
spawn collide, so the session is terminal and the tick timer is cancelled. -/
theorem spec_lock_spawn_game_over_witness :
    blockedState.isGameOver = false ∧
      (placePieceState blockedState 3).isGameOver = true ∧
      (placePieceState blockedState 3).timerActive = false :=
  ⟨rfl, by decide,
   (spec_lock_spawn_game_over blockedState 3 rfl).2.2.2.2.2 (by decide)⟩

/-! ### The piece catalog -/

/-- Number of rotation states of a catalog entry. -/
def rotationCount (d : PieceDef) : Nat := d.rotations.length

/-- A rotation matrix is square of dimension k. -/
def matrixIsSquare (m : List (List Nat)) (k : Nat) : Prop :=
  m.length = k ∧ ∀ row ∈ m, row.length = k

instance (m : List (List Nat)) (k : Nat) : Decidable (matrixIsSquare m k) :=
  inferInstanceAs (Decidable (m.length = k ∧ ∀ row ∈ m, row.length = k))

/-- The dimension classification asserted by the spec sentence: 4 by 4 for a
two-state variant, 3 by 3 for four-state variants, 2 by 2 for the
single-state variant, covering all seven variants. -/
def specDimensionClassification : Prop :=
  PIECES.length = 7 ∧
  ∀ d ∈ PIECES,
    (rotationCount d = 2 → ∀ m ∈ d.rotations, matrixIsSquare m 4) ∧
    (rotationCount d = 4 → ∀ m ∈ d.rotations, matrixIsSquare m 3) ∧
    (rotationCount d = 1 → ∀ m ∈ d.rotations, matrixIsSquare m 2)

instance : Decidable specDimensionClassification :=
  inferInstanceAs (Decidable (PIECES.length = 7 ∧
    ∀ d ∈ PIECES,
      (rotationCount d = 2 → ∀ m ∈ d.rotations, matrixIsSquare m 4) ∧
      (rotationCount d = 4 → ∀ m ∈ d.rotations, matrixIsSquare m 3) ∧
      (rotationCount d = 1 → ∀ m ∈ d.rotations, matrixIsSquare m 2)))

/-- C9 counterexample: the classification fails on the catalog, because the
S and Z variants have two-state rotation cycles with 3 by 3 matrices, not
4 by 4. -/
theorem spec_piece_catalog_classification_counterexample :
    ¬ specDimensionClassification := by decide

/-- C9 amended: the catalog has exactly 7 variants with these per-variant
state counts and square matrix dimensions: I (index 0) has a two-state
rotation cycle of 4 by 4 matrices, J (1), L (2) and T (5) have four states of
3 by 3 matrices, O (3) has a single state of 2 by 2 matrices, and S (4) and
Z (6) have two-state cycles of 3 by 3 matrices - so the two-state variants
are not all 4 by 4. -/
theorem spec_piece_catalog_classification_amended :
    PIECES.length = 7 ∧
    (rotationCount (PIECES.getD 0 defaultPieceDef) = 2 ∧
     ∀ m ∈ (PIECES.getD 0 defaultPieceDef).rotations, matrixIsSquare m 4) ∧
    (rotationCount (PIECES.getD 1 defaultPieceDef) = 4 ∧
     ∀ m ∈ (PIECES.getD 1 defaultPieceDef).rotations, matrixIsSquare m 3) ∧
    (rotationCount (PIECES.getD 2 defaultPieceDef) = 4 ∧
     ∀ m ∈ (PIECES.getD 2 defaultPieceDef).rotations, matrixIsSquare m 3) ∧
    (rotationCount (PIECES.getD 3 defaultPieceDef) = 1 ∧
     ∀ m ∈ (PIECES.getD 3 defaultPieceDef).rotations, matrixIsSquare m 2) ∧
    (rotationCount (PIECES.getD 4 defaultPieceDef) = 2 ∧
     ∀ m ∈ (PIECES.getD 4 defaultPieceDef).rotations, matrixIsSquare m 3) ∧
    (rotationCount (PIECES.getD 5 defaultPieceDef) = 4 ∧
     ∀ m ∈ (PIECES.getD 5 defaultPieceDef).rotations, matrixIsSquare m 3) ∧
    (rotationCount (PIECES.getD 6 defaultPieceDef) = 2 ∧
     ∀ m ∈ (PIECES.getD 6 defaultPieceDef).rotations, matrixIsSquare m 3) := by decide

/-- Witness for C9 amended: the first rotation matrix of the I entry is one
of its rotation states and is square of dimension 4. -/
theorem spec_piece_catalog_classification_amended_witness :
    (PIECES.getD 0 defaultPieceDef).rotations.getD 0 [] ∈
        (PIECES.getD 0 defaultPieceDef).rotations ∧
      matrixIsSquare ((PIECES.getD 0 defaultPieceDef).rotations.getD 0 []) 4 :=
  ⟨by decide,
   spec_piece_catalog_classification_amended.2.1.2
     ((PIECES.getD 0 defaultPieceDef).rotations.getD 0 []) (by decide)⟩

end Tetris
